import Mathlib

/-!
Shallow embedding of the Turing-machine simulator:
`src/main.py` (batch engine, namespace `Main`) and
`src/turing_gui_advanced.py` (interactive engine with undo, namespace `Gui`).

Python strings are modelled as `String`; a Python `str` used as a sequence of
characters (the tape input) is modelled as `List String` of one-character
symbols.  A Python `dict` from `int` to `str` is modelled as an insertion
ordered association list `List (Int × String)`; Python `set`s of strings,
used only for membership tests, are modelled as `List String`.
-/

namespace TMModel

/-- Python `dict` keyed by tape position, in insertion order. -/
abbrev Dict := List (Int × String)

/-- Python `d.get(k)` without the default: the stored value, if present. -/
def dictGet (d : Dict) (k : Int) : Option String :=
  (d.find? (fun p => p.1 == k)).map (fun p => p.2)

/-- Python `d[k] = v`: replace in place if the key is present, else append. -/
def dictSet (d : Dict) (k : Int) (v : String) : Dict :=
  if d.any (fun p => p.1 == k) then
    d.map (fun p => if p.1 == k then (k, v) else p)
  else d ++ [(k, v)]

/-- Python `del d[k]` (also `d.pop(k, None)`): drop the entry, if any. -/
def dictDel (d : Dict) (k : Int) : Dict :=
  d.filter (fun p => p.1 != k)

/-- Python `min` over a non-empty collection of keys (`none` when empty). -/
def listMin : List Int → Option Int
  | [] => none
  | x :: xs => some (xs.foldl min x)

/-- Python `max` over a non-empty collection of keys (`none` when empty). -/
def listMax : List Int → Option Int
  | [] => none
  | x :: xs => some (xs.foldl max x)

/-- Loop `for i, ch in enumerate(tape_input): tape[i] = ch`, keys from `i`. -/
def initTapeAux (i : Int) : List String → Dict
  | [] => []
  | c :: cs => (i, c) :: initTapeAux (i + 1) cs

/-- Tape built from the input string: key `i` holds the `i`-th character. -/
def initTape (input : List String) : Dict := initTapeAux 0 input

/-- Transition-table lookup `transitions[(state, symbol)]`. -/
def lookupT (ts : List ((String × String) × (String × String × String)))
    (k : String × String) : Option (String × String × String) :=
  (ts.find? (fun p => p.1 == k)).map (fun p => p.2)

namespace Main

/-- Class `TuringMachine` of `src/main.py`: spec fields plus mutable run state. -/
structure TM where
  states : List String
  input_symbols : List String
  tape_symbols : List String
  transitions : List ((String × String) × (String × String × String))
  state : String
  blank : String
  final_states : List String
  tape : Dict
  head : Int
  step_count : Nat
deriving DecidableEq

/-- Constructor `__init__`: plain field assignment and tape initialisation; the
constructor performs no validation of any kind. -/
def init (states input_symbols tape_symbols : List String)
    (transitions : List ((String × String) × (String × String × String)))
    (initial_state blank_symbol : String) (final_states : List String)
    (tape_input : List String) : TM :=
  { states := states
    input_symbols := input_symbols
    tape_symbols := tape_symbols
    transitions := transitions
    state := initial_state
    blank := blank_symbol
    final_states := final_states
    tape := initTape tape_input
    head := 0
    step_count := 0 }

/-- Method `read`: stored symbol, or the blank symbol when the position is unset. -/
def read (m : TM) (position : Int) : String :=
  (dictGet m.tape position).getD m.blank

/-- Method `write`: writing the blank erases the entry, otherwise store the symbol. -/
def write (m : TM) (position : Int) (symbol : String) : TM :=
  if symbol == m.blank then {m with tape := dictDel m.tape position}
  else {m with tape := dictSet m.tape position symbol}

/-- Method `current_symbol`: the symbol under the head. -/
def current_symbol (m : TM) : String := read m m.head

/-- Method `step`: apply one transition; `.ok (false, m)` when no rule matches,
`.error` models the `ValueError` raised on an invalid direction.  (In
Python the raise happens after the write and state assignment mutated
the object; the exception value is all the claims observe.) -/
def step (m : TM) : Except String (Bool × TM) :=
  let cur_sym := current_symbol m
  match lookupT m.transitions (m.state, cur_sym) with
  | none => .ok (false, m)
  | some (new_state, write_sym, direction) =>
    let m1 := write m m.head write_sym
    let m2 := {m1 with state := new_state}
    if direction == "R" then
      .ok (true, {m2 with head := m2.head + 1, step_count := m2.step_count + 1})
    else if direction == "L" then
      .ok (true, {m2 with head := m2.head - 1, step_count := m2.step_count + 1})
    else if direction == "N" then
      .ok (true, {m2 with step_count := m2.step_count + 1})
    else
      .error ("Invalid direction: " ++ direction)

/-- Python `range(left, right + 1)` as a list of integers. -/
def intRange (left right : Int) : List Int :=
  (List.range (right + 1 - left).toNat).map (fun (n : Nat) => left + (n : Int))

/-- Method `tape_str_window`: symbols of the window `[min_idx - padding,
max_idx + padding]` plus `head - left`; `min_idx`/`max_idx` fold the head
into the extreme tape keys (or `0` for an empty tape). -/
def tape_str_window (m : TM) (padding : Int) : List String × Int :=
  let minIdx : Int := match listMin (m.tape.map (fun p => p.1)) with
    | some k => min k m.head
    | none => min 0 m.head
  let maxIdx : Int := match listMax (m.tape.map (fun p => p.1)) with
    | some k => max k m.head
    | none => max 0 m.head
  let left := minIdx - padding
  let right := maxIdx + padding
  ((intRange left right).map (fun i => read m i), m.head - left)

/-- Body of `run`: each iteration first accepts when the state is final, then
steps; a missing rule rejects; exhausting the budget yields `(false, none)`. -/
def runAux : Nat → TM → Except String ((Bool × Option String) × TM)
  | 0, m => .ok ((false, none), m)
  | n + 1, m =>
    if m.final_states.contains m.state then
      .ok ((true, some m.state), m)
    else
      match step m with
      | .error e => .error e
      | .ok (applied, m1) =>
        if applied then runAux n m1
        else .ok ((false, some m1.state), m1)

/-- Method `run(max_steps)` (verbose printing omitted: it only formats output). -/
def run (m : TM) (max_steps : Nat) : Except String ((Bool × Option String) × TM) :=
  runAux max_steps m

end Main

namespace Gui

/-- One entry of the undo history: a deep copy of
`(state, tape, head, steps, halted, accepted)`. -/
structure Snapshot where
  state : String
  tape : Dict
  head : Int
  steps : Nat
  halted : Bool
  accepted : Bool
deriving DecidableEq

/-- Class `TuringMachine` of `src/turing_gui_advanced.py`.  The history stack is
modelled with the most recent snapshot at the head of the list (Python
appends to and pops from the end of `self.history`). -/
structure TM where
  transitions : List ((String × String) × (String × String × String))
  initial_state : String
  final_states : List String
  blank : String
  history : List Snapshot
  state : String
  tape : Dict
  head : Int
  steps : Nat
  halted : Bool
  accepted : Bool
deriving DecidableEq

/-- Method `snapshot`: copy the observable configuration (deep copy is the
identity on immutable values). -/
def snapshot (m : TM) : Snapshot :=
  ⟨m.state, m.tape, m.head, m.steps, m.halted, m.accepted⟩

/-- Method `restore`: overwrite the observable configuration from a snapshot. -/
def restore (m : TM) (s : Snapshot) : TM :=
  { m with state := s.state, tape := s.tape, head := s.head,
           steps := s.steps, halted := s.halted, accepted := s.accepted }

/-- Method `reset(tape_input)`: reinitialise the run state and clear the history. -/
def reset (m : TM) (tape_input : List String) : TM :=
  { m with state := m.initial_state, tape := initTape tape_input,
           head := 0, steps := 0, halted := false, accepted := false,
           history := [] }

/-- Constructor `__init__(transitions, initial_state, final_states, blank)`: assign the
spec fields, start with an empty history and `reset("")`.  No validation. -/
def init (transitions : List ((String × String) × (String × String × String)))
    (initial_state : String) (final_states : List String)
    (blank : String) : TM :=
  reset
    { transitions := transitions
      initial_state := initial_state
      final_states := final_states
      blank := blank
      history := []
      state := initial_state
      tape := []
      head := 0
      steps := 0
      halted := false
      accepted := false } []

/-- Method `read()`: symbol under the head, blank when unset. -/
def readCur (m : TM) : String := (dictGet m.tape m.head).getD m.blank

/-- Method `write(sym)`: at the head, pop the entry for blank, else store. -/
def writeCur (m : TM) (sym : String) : TM :=
  if sym == m.blank then {m with tape := dictDel m.tape m.head}
  else {m with tape := dictSet m.tape m.head sym}

/-- Method `step()`: no-op returning false once halted; otherwise push a snapshot,
then either halt on a missing rule (accepted iff the state is final) or
apply the rule — directions other than `R` and `L` leave the head in
place — and halt accepting when the new state is final. -/
def step (m : TM) : TM × Bool :=
  if m.halted then (m, false)
  else
    let m1 := {m with history := snapshot m :: m.history}
    match lookupT m1.transitions (m1.state, readCur m1) with
    | none =>
      ({m1 with halted := true,
                accepted := m1.final_states.contains m1.state}, false)
    | some (ns, w, mv) =>
      let m2 := writeCur m1 w
      let m3 := {m2 with state := ns}
      let m4 := if mv == "R" then {m3 with head := m3.head + 1}
                else if mv == "L" then {m3 with head := m3.head - 1}
                else m3
      let m5 := {m4 with steps := m4.steps + 1}
      let m6 := if m5.final_states.contains m5.state then
                  {m5 with halted := true, accepted := true}
                else m5
      (m6, true)

/-- Method `undo()`: restore and pop the most recent snapshot when one exists.
The Python function has no `return` statement, so its value is `None` on
every path, modelled as the second component `none : Option Bool`. -/
def undo (m : TM) : TM × Option Bool :=
  match m.history with
  | [] => (m, none)
  | s :: rest => (restore {m with history := rest} s, none)

/-- Engine states reachable through the public API: construction, then any
sequence of `reset`, `step` and `undo`. -/
inductive Reachable : TM → Prop
  | init (t : List ((String × String) × (String × String × String)))
      (i : String) (f : List String) (b : String) : Reachable (init t i f b)
  | reset (m : TM) (input : List String) :
      Reachable m → Reachable (reset m input)
  | step (m : TM) : Reachable m → Reachable (step m).1
  | undo (m : TM) : Reachable m → Reachable (undo m).1

end Gui

/-- Store invariant: no entry holds the blank symbol. -/
def TapeOk (blank : String) (d : Dict) : Prop := ∀ p ∈ d, p.2 ≠ blank

/-- The parity machine's transition table (`src/main.py`, `__main__`). -/
def parityT : List ((String × String) × (String × String × String)) :=
  [(("q_even", "1"), ("q_odd", "1", "R")),
   (("q_even", "0"), ("q_even", "0", "R")),
   (("q_even", "_"), ("q_accept", "_", "N")),
   (("q_odd", "1"), ("q_even", "1", "R")),
   (("q_odd", "0"), ("q_odd", "0", "R")),
   (("q_odd", "_"), ("q_reject", "_", "N"))]

/-- The parity machine of `src/main.py` on a given input. -/
def parityTM (inp : List String) : Main.TM :=
  Main.init ["q_even", "q_odd", "q_accept", "q_reject"] ["0", "1"]
    ["0", "1", "_"] parityT "q_even" "_" ["q_accept"] inp

/-- The parity machine as a GUI engine (table of `MACHINES`, blank `_`). -/
def parityG : Gui.TM := Gui.init parityT "q_even" ["q_accept"] "_"

/-- A well-formed machine whose initial state is final and also has a rule
for the symbol it reads first (`(A, _) → (B, _, N)`). -/
def finalRuleTM : Main.TM :=
  Main.init ["A", "B"] [] ["_"] [(("A", "_"), ("B", "_", "N"))] "A" "_" ["A"] []

/-- A machine whose only rule carries the direction `X`. -/
def badDirTM : Main.TM :=
  Main.init ["A"] [] ["_"] [(("A", "_"), ("A", "_", "X"))] "A" "_" [] []

/-- A machine whose only transition targets a state outside `Q`. -/
def danglingTM : Main.TM :=
  Main.init ["A"] ["0"] ["0", "_"] [(("A", "0"), ("NOWHERE", "0", "R"))]
    "A" "_" ["A"] []

/-- The batch parity machine constructed on the input string `"_"`. -/
def blankInputTM : Main.TM :=
  Main.init ["q_even", "q_odd", "q_accept", "q_reject"] ["0", "1"]
    ["0", "1", "_"] parityT "q_even" "_" ["q_accept"] ["_"]

/-- GUI parity engine reset on the empty input and stepped once: it enters
`q_accept`, halts, and its history holds one snapshot. -/
def haltedG : Gui.TM := (Gui.step (Gui.reset parityG [])).1

/-- GUI parity engine reset on `"1"` and stepped once (running, with a
non-empty history). -/
def oneStepG : Gui.TM := (Gui.step (Gui.reset parityG ["1"])).1

/-- GUI parity engine reset on `"1"` and stepped twice: state `q_reject`,
not halted, and no rule matches the blank it reads. -/
def rejectG : Gui.TM := (Gui.step (Gui.step (Gui.reset parityG ["1"])).1).1

/-- Property of a transition table: every rule's direction is one the batch
engine's `step` handles without raising. -/
def validDirs (ts : List ((String × String) × (String × String × String))) : Prop :=
  ∀ r ∈ ts, r.2.2.2 = "R" ∨ r.2.2.2 = "L" ∨ r.2.2.2 = "N"

/-- Invariant of reachable GUI engines: once halted, the acceptance flag
agrees with finality of the current state, and every history entry was
snapshotted while the engine was still running. -/
def HaltInv (m : Gui.TM) : Prop :=
  (m.halted = true → m.accepted = m.final_states.contains m.state)
  ∧ ∀ s ∈ m.history, s.halted = false

/-- Keys of the store entries holding a non-blank symbol. -/
def nonBlankKeys (d : Dict) (blank : String) : List Int :=
  (d.filter (fun p => !(p.2 == blank))).map (fun p => p.1)

/-- Modelled from the spec wording: the viewport lower bound
`low = min(head, min non-blank key present) − padding`, with `0` in place
of the missing minimum on an empty tape. -/
def specViewLow (m : Main.TM) (padding : Int) : Int :=
  (match listMin (nonBlankKeys m.tape m.blank) with
   | some k => min m.head k
   | none => min m.head 0) - padding

/-- Modelled from the spec wording: the viewport upper bound
`high = max(head, max non-blank key present) + padding`, with `0` in place
of the missing maximum on an empty tape. -/
def specViewHigh (m : Main.TM) (padding : Int) : Int :=
  (match listMax (nonBlankKeys m.tape m.blank) with
   | some k => max m.head k
   | none => max m.head 0) + padding

end TMModel

open TMModel

/-- Record characterisation of the GUI engine's `write`. -/
theorem writeCur_eq (m : Gui.TM) (sym : String) :
    Gui.writeCur m sym =
      { m with tape := if sym == m.blank then dictDel m.tape m.head
                       else dictSet m.tape m.head sym } := by
  unfold Gui.writeCur
  split <;> simp [*]

/-- Once halted, the GUI engine's `step` is an identity returning false. -/
theorem gui_step_halted (m : Gui.TM) (h : m.halted = true) :
    Gui.step m = (m, false) := by
  simp [Gui.step, h]

/-- While running, `step` pushes exactly one snapshot of the pre-step
configuration onto the history. -/
theorem gui_step_history (m : Gui.TM) (h : m.halted = false) :
    (Gui.step m).1.history = Gui.snapshot m :: m.history := by
  unfold Gui.step
  rw [h]
  simp only [Bool.false_eq_true, if_false, writeCur_eq]
  repeat' split
  all_goals rfl

/-- While running with no applicable rule, `step` only pushes the snapshot
and sets the halt/acceptance flags. -/
theorem gui_step_noRule (m : Gui.TM) (h : m.halted = false)
    (hl : lookupT m.transitions (m.state, Gui.readCur m) = none) :
    Gui.step m = ({ m with history := Gui.snapshot m :: m.history,
                           halted := true,
                           accepted := m.final_states.contains m.state }, false) := by
  unfold Gui.step
  rw [h]
  simp only [Bool.false_eq_true, if_false]
  split
  · rfl
  · next ns w mv heq => exact Option.noConfusion (hl.symm.trans heq)

/-- While running with an applicable rule, `step` applies it: the field
effects of the rule branch of `TuringMachine.step`. -/
theorem gui_step_rule (m : Gui.TM) (ns w mv : String) (h : m.halted = false)
    (hl : lookupT m.transitions (m.state, Gui.readCur m) = some (ns, w, mv)) :
    (Gui.step m).2 = true
    ∧ (Gui.step m).1.state = ns
    ∧ (Gui.step m).1.steps = m.steps + 1
    ∧ (Gui.step m).1.halted = m.final_states.contains ns
    ∧ (Gui.step m).1.accepted
        = (if m.final_states.contains ns then true else m.accepted)
    ∧ (Gui.step m).1.head = (if mv == "R" then m.head + 1
                             else if mv == "L" then m.head - 1 else m.head)
    ∧ (Gui.step m).1.blank = m.blank
    ∧ (Gui.step m).1.tape = (if w == m.blank then dictDel m.tape m.head
                             else dictSet m.tape m.head w) := by
  unfold Gui.step
  rw [h]
  simp only [Bool.false_eq_true, if_false, writeCur_eq]
  split
  · next heq => exact Option.noConfusion (hl.symm.trans heq)
  · next ns2 w2 mv2 heq =>
    have hinj := hl.symm.trans heq
    simp only [Option.some.injEq, Prod.mk.injEq] at hinj
    obtain ⟨h1, h2, h3⟩ := hinj
    subst h1; subst h2; subst h3
    repeat' split
    all_goals simp_all

/-- Construction establishes the halt/history invariant. -/
theorem gui_init_haltInv
    (t : List ((String × String) × (String × String × String)))
    (i : String) (f : List String) (b : String) :
    HaltInv (Gui.init t i f b) := by
  constructor
  · intro h
    simp [Gui.init, Gui.reset] at h
  · intro s hs
    simp [Gui.init, Gui.reset] at hs

/-- Reset establishes the halt/history invariant. -/
theorem gui_reset_haltInv (m : Gui.TM) (input : List String) :
    HaltInv (Gui.reset m input) := by
  constructor
  · intro h
    simp [Gui.reset] at h
  · intro s hs
    simp [Gui.reset] at hs

/-- Stepping preserves the halt/history invariant. -/
theorem gui_step_haltInv (m : Gui.TM) (hI : HaltInv m) :
    HaltInv (Gui.step m).1 := by
  by_cases h : m.halted = true
  · rw [gui_step_halted m h]
    exact hI
  · have h' : m.halted = false := by simpa using h
    cases hl : lookupT m.transitions (m.state, Gui.readCur m) with
    | none =>
      rw [gui_step_noRule m h' hl]
      refine ⟨fun _ => rfl, ?_⟩
      intro s hs
      rcases List.mem_cons.mp hs with hcons | hold
      · rw [hcons]; exact h'
      · exact hI.2 s hold
    | some v =>
      obtain ⟨ns, w, mv⟩ := v
      obtain ⟨-, hstate, -, hhalted, haccept, -, -, -⟩ := gui_step_rule m ns w mv h' hl
      have hh := gui_step_history m h'
      have hfs : (Gui.step m).1.final_states = m.final_states := by
        unfold Gui.step
        rw [h']
        simp only [Bool.false_eq_true, if_false, writeCur_eq]
        repeat' split
        all_goals rfl
      constructor
      · intro hhalt
        rw [hhalted] at hhalt
        rw [haccept, hfs, hstate, hhalt]
        simp
      · intro s hs
        rw [hh] at hs
        rcases List.mem_cons.mp hs with hcons | hold
        · rw [hcons]; exact h'
        · exact hI.2 s hold

/-- Undoing preserves the halt/history invariant. -/
theorem gui_undo_haltInv (m : Gui.TM) (hI : HaltInv m) :
    HaltInv (Gui.undo m).1 := by
  unfold Gui.undo
  cases hh : m.history with
  | nil => exact hI
  | cons s rest =>
    have hsf : s.halted = false := hI.2 s (by rw [hh]; exact List.mem_cons_self s rest)
    constructor
    · intro hhalt
      simp only [Gui.restore] at hhalt
      rw [hsf] at hhalt
      exact absurd hhalt (by simp)
    · intro q hq
      simp only [Gui.restore] at hq
      exact hI.2 q (by rw [hh]; exact List.mem_cons_of_mem s hq)

/-- Every reachable GUI engine satisfies the halt/history invariant. -/
theorem gui_reachable_haltInv (m : Gui.TM) (hr : Gui.Reachable m) : HaltInv m := by
  induction hr with
  | init t i f b => exact gui_init_haltInv t i f b
  | reset m input _ _ => exact gui_reset_haltInv m input
  | step m _ ih => exact gui_step_haltInv m ih
  | undo m _ ih => exact gui_undo_haltInv m ih

/-- A successful transition lookup returns the payload of a table entry. -/
theorem lookupT_mem (ts : List ((String × String) × (String × String × String)))
    (k : String × String) (v : String × String × String)
    (h : lookupT ts k = some v) : ∃ k2, (k2, v) ∈ ts := by
  unfold lookupT at h
  cases hf : ts.find? (fun p => p.1 == k) with
  | none => rw [hf] at h; exact Option.noConfusion h
  | some p =>
    rw [hf] at h
    simp only [Option.map_some', Option.some.injEq] at h
    refine ⟨p.1, ?_⟩
    rw [← h]
    exact List.mem_of_find?_eq_some hf

/-- Record characterisation of the batch engine's `write`. -/
theorem main_write_eq (m : Main.TM) (pos : Int) (sym : String) :
    Main.write m pos sym =
      { m with tape := if sym == m.blank then dictDel m.tape pos
                       else dictSet m.tape pos sym } := by
  unfold Main.write
  split <;> simp [*]

/-- With every table direction valid, the batch `step` never raises, and it
leaves the transition table unchanged. -/
theorem main_step_ok (m : Main.TM) (hv : validDirs m.transitions) :
    ∃ b m1, Main.step m = .ok (b, m1) ∧ m1.transitions = m.transitions := by
  simp only [Main.step]
  cases hl : lookupT m.transitions (m.state, Main.current_symbol m) with
  | none => exact ⟨false, m, rfl, rfl⟩
  | some v =>
    obtain ⟨ns, w, d⟩ := v
    obtain ⟨k2, hmem⟩ := lookupT_mem _ _ _ hl
    have hd := hv _ hmem
    simp only at hd
    rcases hd with h | h | h <;> subst h <;> simp [main_write_eq]

/-- With every table direction valid, the batch run loop never raises. -/
theorem main_runAux_ok (fuel : Nat) :
    ∀ m : Main.TM, validDirs m.transitions →
      ∃ r, Main.runAux fuel m = .ok r := by
  induction fuel with
  | zero => exact fun m _ => ⟨_, rfl⟩
  | succ n ih =>
    intro m hv
    unfold Main.runAux
    by_cases hf : m.final_states.contains m.state = true
    · rw [hf]
      simp
    · rw [Bool.not_eq_true] at hf
      rw [hf]
      simp only [Bool.false_eq_true, if_false]
      obtain ⟨b, m1, hs, ht⟩ := main_step_ok m hv
      rw [hs]
      cases b with
      | false => simp
      | true =>
        simp only [if_true]
        exact ih m1 (ht ▸ hv)

/-- Tapes built by `enumerate` from blank-free input satisfy the store
invariant, whatever the starting key. -/
theorem initTapeAux_tapeOk (blank : String) (input : List String) :
    ∀ i : Int, (∀ c ∈ input, c ≠ blank) → TapeOk blank (initTapeAux i input) := by
  induction input with
  | nil =>
    intro i _ p hp
    exact absurd hp (List.not_mem_nil p)
  | cons c cs ih =>
    intro i h p hp
    rcases List.mem_cons.mp hp with h1 | h2
    · rw [h1]
      exact h c (List.mem_cons_self c cs)
    · exact ih (i + 1) (fun x hx => h x (List.mem_cons_of_mem c hx)) p h2

/-- Deleting an entry preserves the store invariant. -/
theorem tapeOk_dictDel (blank : String) (d : Dict) (pos : Int)
    (h : TapeOk blank d) : TapeOk blank (dictDel d pos) := by
  intro p hp
  exact h p (List.mem_of_mem_filter hp)

/-- Storing a non-blank symbol preserves the store invariant. -/
theorem tapeOk_dictSet (blank : String) (d : Dict) (pos : Int) (sym : String)
    (hsym : sym ≠ blank) (h : TapeOk blank d) :
    TapeOk blank (dictSet d pos sym) := by
  intro p hp
  unfold dictSet at hp
  split at hp
  · rcases List.mem_map.mp hp with ⟨q, hq, hqe⟩
    subst hqe
    split
    · exact hsym
    · exact h q hq
  · rcases List.mem_append.mp hp with h1 | h2
    · exact h p h1
    · rw [List.mem_singleton.mp h2]
      exact hsym

/-- The write discipline — delete on blank, store otherwise — preserves the
store invariant for an arbitrary written symbol. -/
theorem tapeOk_writeStore (blank : String) (d : Dict) (pos : Int) (sym : String)
    (h : TapeOk blank d) :
    TapeOk blank (if sym == blank then dictDel d pos else dictSet d pos sym) := by
  by_cases hs : (sym == blank) = true
  · rw [if_pos hs]
    exact tapeOk_dictDel blank d pos h
  · rw [Bool.not_eq_true] at hs
    rw [hs]
    simp only [Bool.false_eq_true, if_false]
    exact tapeOk_dictSet blank d pos sym (beq_eq_false_iff_ne.mp hs) h

/-- Length of the embedded Python `range(left, right + 1)`. -/
theorem intRange_length (left right : Int) :
    (Main.intRange left right).length = (right + 1 - left).toNat := by
  unfold Main.intRange
  rw [List.length_map, List.length_range]

/-- Elements of the embedded Python `range(left, right + 1)`. -/
theorem intRange_get? (left right : Int) (j : Nat)
    (h : j < (right + 1 - left).toNat) :
    (Main.intRange left right)[j]? = some (left + j) := by
  unfold Main.intRange
  rw [List.getElem?_map, List.getElem?_range h]
  rfl

/-- Core viewport facts for any window bounds that bracket the head. -/
theorem window_core (m : Main.TM) (minIdx maxIdx padding : Int)
    (h1 : minIdx ≤ m.head) (h2 : m.head ≤ maxIdx) (hp : 0 ≤ padding) :
    (((Main.intRange (minIdx - padding) (maxIdx + padding)).map
        (fun i => Main.read m i)).length : Int)
      = (maxIdx + padding) - (minIdx - padding) + 1
    ∧ (∀ j : Nat,
        j < ((Main.intRange (minIdx - padding) (maxIdx + padding)).map
          (fun i => Main.read m i)).length →
        ((Main.intRange (minIdx - padding) (maxIdx + padding)).map
          (fun i => Main.read m i))[j]?
          = some (Main.read m ((minIdx - padding) + j)))
    ∧ (0 : Int) ≤ m.head - (minIdx - padding)
    ∧ ((Main.intRange (minIdx - padding) (maxIdx + padding)).map
        (fun i => Main.read m i))[(m.head - (minIdx - padding)).toNat]?
        = some (Main.read m m.head) := by
  have hnn : 0 ≤ (maxIdx + padding) + 1 - (minIdx - padding) := by omega
  have hl1 : (((Main.intRange (minIdx - padding) (maxIdx + padding)).map
      (fun i => Main.read m i)).length : Int)
      = (maxIdx + padding) + 1 - (minIdx - padding) := by
    rw [List.length_map, intRange_length, Int.toNat_of_nonneg hnn]
  refine ⟨by rw [hl1]; omega, ?_, by omega, ?_⟩
  · intro j hj
    rw [List.length_map, intRange_length] at hj
    rw [List.getElem?_map, intRange_get? _ _ j hj]
    rfl
  · have hjlt : (m.head - (minIdx - padding)).toNat
        < ((maxIdx + padding) + 1 - (minIdx - padding)).toNat := by omega
    rw [List.getElem?_map, intRange_get? _ _ _ hjlt]
    rw [show (minIdx - padding) + ((m.head - (minIdx - padding)).toNat : Int)
          = m.head by omega]
    rfl

/-- Claim C1, counterexample: a machine whose (final) initial state has a
rule for the blank it reads, yet the batch `run` halts accepting at once,
returning the machine unchanged with `step_count = 0` — the rule is not
followed, and acceptance is decided although a rule exists for the current
(state, symbol) and no transition was applied. -/
theorem claim_C1_counterexample :
    lookupT finalRuleTM.transitions
        (finalRuleTM.state, Main.current_symbol finalRuleTM)
      = some ("B", "_", "N")
    ∧ finalRuleTM.final_states.contains finalRuleTM.state = true
    ∧ Main.run finalRuleTM 10 = .ok ((true, some "A"), finalRuleTM)
    ∧ finalRuleTM.step_count = 0 :=
  ⟨rfl, rfl, rfl, rfl⟩

/-- Claim C1, amended: the interactive engine follows a defined rule even
from a final state — a non-halted configuration with a matching rule
always applies it, and halts exactly when the rule's target state is
final; the batch engine's `run`, by contrast, checks finality before each
step and halts accepting whenever the current state is final, whether or
not a rule is defined for the current (state, symbol). -/
theorem claim_C1 :
    (∀ (m : Gui.TM) (ns w mv : String), m.halted = false →
      lookupT m.transitions (m.state, Gui.readCur m) = some (ns, w, mv) →
      (Gui.step m).2 = true
      ∧ (Gui.step m).1.state = ns
      ∧ (Gui.step m).1.steps = m.steps + 1
      ∧ (Gui.step m).1.halted = m.final_states.contains ns)
    ∧ (∀ (m : Main.TM) (fuel : Nat), m.final_states.contains m.state = true →
      Main.runAux (fuel + 1) m = .ok ((true, some m.state), m)) := by
  constructor
  · intro m ns w mv h hl
    obtain ⟨ha, hb, hc, hd, -, -, -, -⟩ := gui_step_rule m ns w mv h hl
    exact ⟨ha, hb, hc, hd⟩
  · intro m fuel h
    unfold Main.runAux
    rw [h]
    simp

/-- Witness for C1 at concrete engines: one running GUI configuration with
an applicable rule, and one batch machine sitting in a final state. -/
theorem claim_C1_witness :
    ((Gui.step oneStepG).2 = true
     ∧ (Gui.step oneStepG).1.state = "q_reject"
     ∧ (Gui.step oneStepG).1.steps = oneStepG.steps + 1
     ∧ (Gui.step oneStepG).1.halted = oneStepG.final_states.contains "q_reject")
    ∧ Main.runAux 4 finalRuleTM = .ok ((true, some finalRuleTM.state), finalRuleTM) :=
  ⟨claim_C1.1 oneStepG "q_reject" "_" "N" rfl rfl,
   claim_C1.2 finalRuleTM 3 rfl⟩

/-- Claim C2, counterexample: a reachable halted configuration with a
non-empty history; `step` pushes nothing there, so `undo` after `step`
rewinds past the previously applied step instead of restoring the given
configuration. -/
theorem claim_C2_counterexample :
    haltedG.halted = true
    ∧ (Gui.step haltedG).1.history ≠ []
    ∧ (Gui.undo (Gui.step haltedG).1).1.state ≠ haltedG.state := by
  refine ⟨rfl, by decide, by decide⟩

/-- Claim C2, amended: for every configuration that is not halted (so that
`step` pushes a snapshot), `undo` after `step` restores state, tape, head,
step count, and both status flags exactly. -/
theorem claim_C2 (m : Gui.TM) (h : m.halted = false) :
    (Gui.undo (Gui.step m).1).1.state = m.state
    ∧ (Gui.undo (Gui.step m).1).1.tape = m.tape
    ∧ (Gui.undo (Gui.step m).1).1.head = m.head
    ∧ (Gui.undo (Gui.step m).1).1.steps = m.steps
    ∧ (Gui.undo (Gui.step m).1).1.halted = m.halted
    ∧ (Gui.undo (Gui.step m).1).1.accepted = m.accepted := by
  have hh := gui_step_history m h
  unfold Gui.undo
  rw [hh]
  simp [Gui.restore, Gui.snapshot, h]

/-- Witness for C2 at a concrete running engine. -/
theorem claim_C2_witness :
    (Gui.undo (Gui.step (Gui.reset parityG ["1"])).1).1.state
      = (Gui.reset parityG ["1"]).state
    ∧ (Gui.undo (Gui.step (Gui.reset parityG ["1"])).1).1.tape
      = (Gui.reset parityG ["1"]).tape
    ∧ (Gui.undo (Gui.step (Gui.reset parityG ["1"])).1).1.head
      = (Gui.reset parityG ["1"]).head
    ∧ (Gui.undo (Gui.step (Gui.reset parityG ["1"])).1).1.steps
      = (Gui.reset parityG ["1"]).steps
    ∧ (Gui.undo (Gui.step (Gui.reset parityG ["1"])).1).1.halted
      = (Gui.reset parityG ["1"]).halted
    ∧ (Gui.undo (Gui.step (Gui.reset parityG ["1"])).1).1.accepted
      = (Gui.reset parityG ["1"]).accepted :=
  claim_C2 (Gui.reset parityG ["1"]) rfl

/-- Claim C3, counterexample: constructing the batch parity machine on the
input string `"_"` copies the blank into the store unchecked, so the store
holds an entry whose value is the blank symbol. -/
theorem claim_C3_counterexample :
    (0, "_") ∈ blankInputTM.tape ∧ blankInputTM.blank = "_"
    ∧ ¬ TapeOk blankInputTM.blank blankInputTM.tape := by
  refine ⟨by decide, rfl, fun h => ?_⟩
  exact h (0, "_") (by decide) rfl

/-- Claim C3, amended: provided every input string used at construction or
reset contains no blank symbol, the store never holds a blank-valued
entry — initialisation establishes the invariant and every write (hence
every step, in either engine) preserves it for arbitrary symbols. -/
theorem claim_C3 :
    (∀ (input : List String) (blank : String), (∀ c ∈ input, c ≠ blank) →
      TapeOk blank (initTape input))
    ∧ (∀ (m : Main.TM) (pos : Int) (sym : String), TapeOk m.blank m.tape →
      TapeOk (Main.write m pos sym).blank (Main.write m pos sym).tape)
    ∧ (∀ (m : Main.TM) (b : Bool) (m1 : Main.TM), Main.step m = .ok (b, m1) →
      TapeOk m.blank m.tape → TapeOk m1.blank m1.tape)
    ∧ (∀ m : Gui.TM, TapeOk m.blank m.tape →
      TapeOk (Gui.step m).1.blank (Gui.step m).1.tape)
    ∧ (∀ (m : Gui.TM) (input : List String), (∀ c ∈ input, c ≠ m.blank) →
      TapeOk (Gui.reset m input).blank (Gui.reset m input).tape) := by
  refine ⟨?_, ?_, ?_, ?_, ?_⟩
  · intro input blank h
    exact initTapeAux_tapeOk blank input 0 h
  · intro m pos sym h
    rw [main_write_eq]
    exact tapeOk_writeStore m.blank m.tape pos sym h
  · intro m b m1 hstep h
    simp only [Main.step] at hstep
    split at hstep
    · simp only [Except.ok.injEq, Prod.mk.injEq] at hstep
      rw [← hstep.2]
      exact h
    · split at hstep
      · simp only [Except.ok.injEq, Prod.mk.injEq] at hstep
        rw [← hstep.2, main_write_eq]
        exact tapeOk_writeStore m.blank m.tape m.head _ h
      · split at hstep
        · simp only [Except.ok.injEq, Prod.mk.injEq] at hstep
          rw [← hstep.2, main_write_eq]
          exact tapeOk_writeStore m.blank m.tape m.head _ h
        · split at hstep
          · simp only [Except.ok.injEq, Prod.mk.injEq] at hstep
            rw [← hstep.2, main_write_eq]
            exact tapeOk_writeStore m.blank m.tape m.head _ h
          · exact Except.noConfusion hstep
  · intro m h
    by_cases hh : m.halted = true
    · rw [gui_step_halted m hh]
      exact h
    · rw [Bool.not_eq_true] at hh
      cases hl : lookupT m.transitions (m.state, Gui.readCur m) with
      | none =>
        rw [gui_step_noRule m hh hl]
        exact h
      | some v =>
        obtain ⟨ns, w, mv⟩ := v
        obtain ⟨-, -, -, -, -, -, hblank, htape⟩ := gui_step_rule m ns w mv hh hl
        rw [hblank, htape]
        exact tapeOk_writeStore m.blank m.tape m.head w h
  · intro m input h
    exact initTapeAux_tapeOk m.blank input 0 h

/-- Witness for C3 at concrete inputs: a blank-free initialisation, a
blank write on the batch engine, and a GUI step. -/
theorem claim_C3_witness :
    (∀ c ∈ (["1", "1"] : List String), c ≠ "_")
    ∧ TapeOk "_" (initTape ["1", "1"])
    ∧ TapeOk (Main.write (parityTM ["1"]) 0 "_").blank
        (Main.write (parityTM ["1"]) 0 "_").tape
    ∧ TapeOk (Gui.step oneStepG).1.blank (Gui.step oneStepG).1.tape :=
  ⟨by decide,
   claim_C3.1 ["1", "1"] "_" (by decide),
   claim_C3.2.1 (parityTM ["1"]) 0 "_" (by unfold TapeOk; decide),
   claim_C3.2.2.2.1 oneStepG (by unfold TapeOk; decide)⟩

/-- Claim C4: on every reachable configuration with no matching rule for
the current (state, symbol), `step` returns false, leaves tape, head and
step count unchanged, and sets the status deterministically — halted, with
acceptance iff the current state is final; the batch engine's `step`
likewise returns false with the machine entirely unchanged. -/
theorem claim_C4 :
    (∀ m : Gui.TM, Gui.Reachable m →
      lookupT m.transitions (m.state, Gui.readCur m) = none →
      (Gui.step m).2 = false
      ∧ (Gui.step m).1.tape = m.tape
      ∧ (Gui.step m).1.head = m.head
      ∧ (Gui.step m).1.steps = m.steps
      ∧ (Gui.step m).1.halted = true
      ∧ (Gui.step m).1.accepted = m.final_states.contains m.state)
    ∧ (∀ m : Main.TM,
      lookupT m.transitions (m.state, Main.current_symbol m) = none →
      Main.step m = .ok (false, m)) := by
  constructor
  · intro m hr hl
    by_cases h : m.halted = true
    · rw [gui_step_halted m h]
      exact ⟨rfl, rfl, rfl, rfl, h, (gui_reachable_haltInv m hr).1 h⟩
    · have h' : m.halted = false := by simpa using h
      rw [gui_step_noRule m h' hl]
      exact ⟨rfl, rfl, rfl, rfl, rfl, rfl⟩
  · intro m hl
    simp only [Main.step, hl]

/-- Witness for C4 at a concrete reachable rejecting configuration. -/
theorem claim_C4_witness :
    (Gui.step rejectG).2 = false
    ∧ (Gui.step rejectG).1.tape = rejectG.tape
    ∧ (Gui.step rejectG).1.head = rejectG.head
    ∧ (Gui.step rejectG).1.steps = rejectG.steps
    ∧ (Gui.step rejectG).1.halted = true
    ∧ (Gui.step rejectG).1.accepted = rejectG.final_states.contains rejectG.state :=
  claim_C4.1 rejectG
    (Gui.Reachable.step _ (Gui.Reachable.step _
      (Gui.Reachable.reset _ _ (Gui.Reachable.init parityT "q_even" ["q_accept"] "_"))))
    rfl

/-- Claim C5, counterexample: on an empty tape with head 0 and padding
`-1`, the returned sequence is empty while the claimed length
`high − low + 1` is `−1`, so the length law fails for that padding. -/
theorem claim_C5_counterexample :
    (parityTM []).tape = []
    ∧ ((Main.tape_str_window (parityTM []) (-1)).1.length : Int)
        ≠ (max (parityTM []).head 0 + (-1))
          - (min (parityTM []).head 0 - (-1)) + 1 :=
  ⟨rfl, by decide⟩

/-- Claim C5, amended: for every tape whose store holds only non-blank
symbols, every head position, and every non-negative padding, the viewport
returns the symbols of each position of `[low, high]` in order — with
`low`/`high` as the spec's formulas over the non-blank keys — has length
`high − low + 1`, and its returned head offset is `head − low`, a valid
index whose entry is `read(head)`; the viewport is a pure function of the
machine, mutating nothing. -/
theorem claim_C5 (m : Main.TM) (padding : Int) (hp : 0 ≤ padding)
    (hb : TapeOk m.blank m.tape) :
    ((Main.tape_str_window m padding).1.length : Int)
        = specViewHigh m padding - specViewLow m padding + 1
    ∧ (∀ j : Nat, j < (Main.tape_str_window m padding).1.length →
        (Main.tape_str_window m padding).1[j]?
          = some (Main.read m (specViewLow m padding + j)))
    ∧ (Main.tape_str_window m padding).2 = m.head - specViewLow m padding
    ∧ 0 ≤ (Main.tape_str_window m padding).2
    ∧ (Main.tape_str_window m padding).1[((Main.tape_str_window m padding).2).toNat]?
        = some (Main.read m m.head) := by
  have hkeys : nonBlankKeys m.tape m.blank = m.tape.map (fun p => p.1) := by
    unfold nonBlankKeys
    congr 1
    refine List.filter_eq_self.mpr ?_
    intro p hpm
    have hpb := hb p hpm
    simp [hpb]
  have hlow : specViewLow m padding
      = (match listMin (m.tape.map (fun p => p.1)) with
         | some k => min k m.head
         | none => min 0 m.head) - padding := by
    unfold specViewLow
    rw [hkeys]
    cases listMin (m.tape.map (fun p => p.1)) with
    | none =>
      show min m.head 0 - padding = min 0 m.head - padding
      rw [min_comm]
    | some k =>
      show min m.head k - padding = min k m.head - padding
      rw [min_comm]
  have hhigh : specViewHigh m padding
      = (match listMax (m.tape.map (fun p => p.1)) with
         | some k => max k m.head
         | none => max 0 m.head) + padding := by
    unfold specViewHigh
    rw [hkeys]
    cases listMax (m.tape.map (fun p => p.1)) with
    | none =>
      show max m.head 0 + padding = max 0 m.head + padding
      rw [max_comm]
    | some k =>
      show max m.head k + padding = max k m.head + padding
      rw [max_comm]
  simp only [Main.tape_str_window]
  rw [hlow, hhigh]
  cases hmins : listMin (m.tape.map (fun p => p.1)) with
  | none =>
    cases hmaxs : listMax (m.tape.map (fun p => p.1)) with
    | none =>
      obtain ⟨w1, w2, w3, w4⟩ := window_core m (min 0 m.head) (max 0 m.head)
        padding (min_le_right 0 m.head) (le_max_right 0 m.head) hp
      exact ⟨w1, w2, rfl, w3, w4⟩
    | some k2 =>
      obtain ⟨w1, w2, w3, w4⟩ := window_core m (min 0 m.head) (max k2 m.head)
        padding (min_le_right 0 m.head) (le_max_right k2 m.head) hp
      exact ⟨w1, w2, rfl, w3, w4⟩
  | some k =>
    cases hmaxs : listMax (m.tape.map (fun p => p.1)) with
    | none =>
      obtain ⟨w1, w2, w3, w4⟩ := window_core m (min k m.head) (max 0 m.head)
        padding (min_le_right k m.head) (le_max_right 0 m.head) hp
      exact ⟨w1, w2, rfl, w3, w4⟩
    | some k2 =>
      obtain ⟨w1, w2, w3, w4⟩ := window_core m (min k m.head) (max k2 m.head)
        padding (min_le_right k m.head) (le_max_right k2 m.head) hp
      exact ⟨w1, w2, rfl, w3, w4⟩

/-- Witness for C5 at the parity machine on `"11"` with padding 2. -/
theorem claim_C5_witness :
    ((Main.tape_str_window (parityTM ["1", "1"]) 2).1.length : Int)
        = specViewHigh (parityTM ["1", "1"]) 2 - specViewLow (parityTM ["1", "1"]) 2 + 1
    ∧ (Main.tape_str_window (parityTM ["1", "1"]) 2).2
        = (parityTM ["1", "1"]).head - specViewLow (parityTM ["1", "1"]) 2
    ∧ (Main.tape_str_window (parityTM ["1", "1"]) 2).1[((Main.tape_str_window (parityTM ["1", "1"]) 2).2).toNat]?
        = some (Main.read (parityTM ["1", "1"]) (parityTM ["1", "1"]).head) :=
  ⟨(claim_C5 (parityTM ["1", "1"]) 2 (by decide) (by unfold TapeOk; decide)).1,
   (claim_C5 (parityTM ["1", "1"]) 2 (by decide) (by unfold TapeOk; decide)).2.2.1,
   (claim_C5 (parityTM ["1", "1"]) 2 (by decide) (by unfold TapeOk; decide)).2.2.2.2⟩

/-- Claim C6, counterexample: a transition whose direction is `X` raises
`ValueError` during stepping (and hence during `run`) — there is no
validation phase to catch it earlier. -/
theorem claim_C6_counterexample :
    Main.step badDirTM = .error "Invalid direction: X"
    ∧ Main.run badDirTM 5 = .error "Invalid direction: X" :=
  ⟨rfl, rfl⟩

/-- Claim C6, amended: when every transition direction lies in
`{L, R, N}`, the batch `step` and `run` always return normally; the GUI
engine's `step` is total outright and treats any direction other than `R`
and `L` as stay.  An invalid direction, however, raises at step time — no
validation phase exists. -/
theorem claim_C6 :
    (∀ m : Main.TM, validDirs m.transitions →
      (∃ r, Main.step m = .ok r) ∧ ∀ fuel, ∃ r, Main.runAux fuel m = .ok r)
    ∧ (∀ (m : Gui.TM) (ns w mv : String), m.halted = false →
      lookupT m.transitions (m.state, Gui.readCur m) = some (ns, w, mv) →
      mv ≠ "R" → mv ≠ "L" → (Gui.step m).1.head = m.head) := by
  constructor
  · intro m hv
    obtain ⟨b, m1, hs, -⟩ := main_step_ok m hv
    exact ⟨⟨(b, m1), hs⟩, fun fuel => main_runAux_ok fuel m hv⟩
  · intro m ns w mv h hl hR hL
    obtain ⟨-, -, -, -, -, hhead, -, -⟩ := gui_step_rule m ns w mv h hl
    rw [hhead]
    simp [hR, hL]

/-- Witness for C6 at the parity machine, whose table only uses `R`/`N`. -/
theorem claim_C6_witness :
    validDirs (parityTM ["1"]).transitions
    ∧ (∃ r, Main.step (parityTM ["1"]) = .ok r)
    ∧ (∃ r, Main.runAux 500 (parityTM ["1"]) = .ok r)
    ∧ (Gui.step oneStepG).1.head = oneStepG.head :=
  ⟨by unfold validDirs; decide,
   (claim_C6.1 (parityTM ["1"]) (by unfold validDirs; decide)).1,
   (claim_C6.1 (parityTM ["1"]) (by unfold validDirs; decide)).2 500,
   claim_C6.2 oneStepG "q_reject" "_" "N" rfl rfl (by decide) (by decide)⟩

/-- Claim C7, counterexample: a spec whose transition targets the state
`NOWHERE` outside `Q` still yields an engine — construction never fails —
and that engine even runs. -/
theorem claim_C7_counterexample :
    danglingTM.states.contains "NOWHERE" = false
    ∧ danglingTM.transitions = [(("A", "0"), ("NOWHERE", "0", "R"))]
    ∧ danglingTM.state = "A"
    ∧ Main.run danglingTM 3 = .ok ((true, some "A"), danglingTM) :=
  ⟨rfl, rfl, rfl, rfl⟩

/-- Claim C7, amended: neither constructor validates anything — for every
specification, well-formed or not, construction succeeds and yields an
engine initialised by plain field assignment; no `SpecError` exists, and
spec violations surface, if at all, only at run time. -/
theorem claim_C7 :
    (∀ (qs isyms tsyms : List String)
       (ts : List ((String × String) × (String × String × String)))
       (q0 b : String) (fs : List String) (inp : List String),
      Main.init qs isyms tsyms ts q0 b fs inp
        = { states := qs, input_symbols := isyms, tape_symbols := tsyms,
            transitions := ts, state := q0, blank := b, final_states := fs,
            tape := initTape inp, head := 0, step_count := 0 })
    ∧ (∀ (ts : List ((String × String) × (String × String × String)))
       (q0 : String) (fs : List String) (b : String),
      Gui.init ts q0 fs b
        = { transitions := ts, initial_state := q0, final_states := fs,
            blank := b, history := [], state := q0, tape := [], head := 0,
            steps := 0, halted := false, accepted := false }) :=
  ⟨fun _ _ _ _ _ _ _ _ => rfl, fun _ _ _ _ => rfl⟩

/-- Claim C8: the parity machine accepts `"11"` with exactly 3 applied
steps, rejects `"1"`, and accepts the empty input. -/
theorem claim_C8 :
    (∃ m, Main.run (parityTM ["1", "1"]) 500
        = .ok ((true, some "q_accept"), m) ∧ m.step_count = 3)
    ∧ (∃ m, Main.run (parityTM ["1"]) 500 = .ok ((false, some "q_reject"), m))
    ∧ (∃ m, Main.run (parityTM []) 500 = .ok ((true, some "q_accept"), m)) :=
  ⟨⟨_, rfl, rfl⟩, ⟨_, rfl⟩, ⟨_, rfl⟩⟩

/-- Claim C9, counterexample: with a non-empty history, `undo` restores
the snapshot but returns `None` — never the boolean `true` the claim
requires. -/
theorem claim_C9_counterexample :
    oneStepG.history ≠ [] ∧ (Gui.undo oneStepG).2 ≠ some true :=
  ⟨by decide, by decide⟩

/-- Claim C9, amended: `undo` restores (and pops) the most recent snapshot
exactly when the history is non-empty, and is a no-op on an empty history;
in both cases its Python return value is `None`, not a boolean. -/
theorem claim_C9 :
    (∀ m : Gui.TM, m.history = [] → Gui.undo m = (m, none))
    ∧ (∀ (m : Gui.TM) (s : Gui.Snapshot) (rest : List Gui.Snapshot),
        m.history = s :: rest →
        (Gui.undo m).2 = none
        ∧ (Gui.undo m).1.state = s.state
        ∧ (Gui.undo m).1.tape = s.tape
        ∧ (Gui.undo m).1.head = s.head
        ∧ (Gui.undo m).1.steps = s.steps
        ∧ (Gui.undo m).1.halted = s.halted
        ∧ (Gui.undo m).1.accepted = s.accepted
        ∧ (Gui.undo m).1.history = rest) := by
  constructor
  · intro m h
    unfold Gui.undo
    rw [h]
  · intro m s rest h
    unfold Gui.undo
    rw [h]
    simp [Gui.restore]

/-- Witness for C9 at a concrete engine with a one-entry history. -/
theorem claim_C9_witness :
    (Gui.undo oneStepG).2 = none
    ∧ (Gui.undo oneStepG).1.state = (Gui.snapshot (Gui.reset parityG ["1"])).state
    ∧ (Gui.undo oneStepG).1.tape = (Gui.snapshot (Gui.reset parityG ["1"])).tape
    ∧ (Gui.undo oneStepG).1.head = (Gui.snapshot (Gui.reset parityG ["1"])).head
    ∧ (Gui.undo oneStepG).1.steps = (Gui.snapshot (Gui.reset parityG ["1"])).steps
    ∧ (Gui.undo oneStepG).1.halted = (Gui.snapshot (Gui.reset parityG ["1"])).halted
    ∧ (Gui.undo oneStepG).1.accepted = (Gui.snapshot (Gui.reset parityG ["1"])).accepted
    ∧ (Gui.undo oneStepG).1.history = [] :=
  claim_C9.2 oneStepG (Gui.snapshot (Gui.reset parityG ["1"])) [] rfl

/-- Claim C10: once the halt flag is set, `step` returns false and is a
complete no-op — the machine, history included, is returned untouched. -/
theorem claim_C10 (m : Gui.TM) (h : m.halted = true) :
    Gui.step m = (m, false) := by
  simp [Gui.step, h]

/-- Witness for C10 at a concrete halted engine. -/
theorem claim_C10_witness : Gui.step haltedG = (haltedG, false) :=
  claim_C10 haltedG rfl
